import Mathlib

/-!
Shallow embedding of the Agenda backend (src/index.js): a user-account and
personal-events service.  The Mongo collections become lists of records, and
each Express route handler becomes a pure function from the request payload
and the current store to a response together with the next store.  The random
bcrypt salt and the Mongo-generated fresh ids enter as explicit parameters.
-/

namespace Agenda

/-- Modelled from the spec: the Credential Hasher (`bcrypt.hash` with a
`bcrypt.genSalt(10)` salt).  bcrypt is an npm dependency whose code is not in
the source tree; per the spec it is a salted one-way digest, modelled here as
an abstract injective function of the salt and the plaintext, i.e. the pair
itself. -/
structure HashValue where
  salt : Nat
  digest : String
deriving DecidableEq, Repr

/-- Modelled from the spec: `hash(plaintext)` with explicit salt parameter
(the salt is drawn randomly by `bcrypt.genSalt`, so it is an input here). -/
def bcryptHash (salt : Nat) (plaintext : String) : HashValue :=
  ⟨salt, plaintext⟩

/-- Modelled from the spec: `verify(plaintext, hashValue)` (`bcrypt.compare`)
recomputes the digest with the salt stored in `hashValue` and compares. -/
def bcryptVerify (plaintext : String) (h : HashValue) : Bool :=
  bcryptHash h.salt plaintext = h

/-- Schema of users: name, email (unique), password (stores the bcrypt
hash), birthDate.  The id field is the Mongo object id; dates are
timestamps. -/
structure User where
  id : Nat
  name : String
  email : String
  password : HashValue
  birthDate : Int
deriving DecidableEq, Repr

/-- Schema of events: userId (owner reference), eventName, venue, dateTime.
The id field is the Mongo object id. -/
structure Event where
  id : Nat
  userId : Nat
  eventName : String
  venue : String
  dateTime : Int
deriving DecidableEq, Repr

/-- The persistent store: the two Mongo collections. -/
structure St where
  users : List User
  events : List Event
deriving DecidableEq, Repr

/-- Response of the login route: `200 {id, name, email}` or an error status
with a message. -/
inductive LoginResult where
  | ok (id : Nat) (name : String) (email : String)
  | err (status : Nat) (message : String)
deriving DecidableEq, Repr

/-- Response of the message-only routes: a status code and a message. -/
inductive ApiResult where
  | ok (status : Nat) (message : String)
  | err (status : Nat) (message : String)
deriving DecidableEq, Repr

/-- Response of the verify-identity route: `200 {userId}` or an error. -/
inductive VerifyIdentityResult where
  | ok (userId : Nat)
  | err (status : Nat) (message : String)
deriving DecidableEq, Repr

/-- Lookup `User.findOne` by email: first user whose email matches exactly. -/
def findOneByEmail (users : List User) (email : String) : Option User :=
  users.find? (fun u => u.email = email)

/-- Route POST /api/users/register: reject if the email is in use, otherwise hash
the password and append the new user.  `freshId` is the Mongo-generated `_id`
and `salt` the random bcrypt salt. -/
def register (st : St) (freshId : Nat) (salt : Nat) (name : String)
    (email : String) (password : String) (birthDate : Int) : ApiResult × St :=
  match findOneByEmail st.users email with
  | some _ => (.err 400 "Email já está em uso.", st)
  | none =>
      let hashedPassword := bcryptHash salt password
      let newUser : User := ⟨freshId, name, email, hashedPassword, birthDate⟩
      (.ok 201 "Utilizador criado com sucesso!",
        { st with users := st.users ++ [newUser] })

/-- Route POST /api/users/login: look the email up; unknown email and failed
`bcrypt.compare` both answer 401 with the same invalid-credentials message. -/
def login (st : St) (email : String) (password : String) : LoginResult :=
  match findOneByEmail st.users email with
  | none => .err 401 "Email ou senha inválidos."
  | some user =>
      if bcryptVerify password user.password then
        .ok user.id user.name user.email
      else
        .err 401 "Email ou senha inválidos."

/-- Route POST /api/users/verify-identity: `User.findOne` on both email and
birthDate, 404 when nothing matches. -/
def verifyIdentity (st : St) (email : String) (birthDate : Int) :
    VerifyIdentityResult :=
  match st.users.find? (fun u => u.email = email ∧ u.birthDate = birthDate) with
  | none => .err 404 "Dados não encontrados."
  | some user => .ok user.id

/-- Route POST /api/users/reset-password: hash the new password, then
`User.findByIdAndUpdate(userId, { password })`; `404` when the id is
absent. -/
def resetPassword (st : St) (salt : Nat) (userId : Nat)
    (newPassword : String) : ApiResult × St :=
  let hashedPassword := bcryptHash salt newPassword
  match st.users.find? (fun u => u.id = userId) with
  | none => (.err 404 "Utilizador não encontrado.", st)
  | some _ =>
      (.ok 200 "Senha redefinida com sucesso!",
        { st with users := st.users.map (fun v =>
            if v.id = userId then { v with password := hashedPassword } else v) })

/-- Bulk delete `Event.deleteMany` by owner: drop every event owned by
`userId`. -/
def deleteAllByOwner (events : List Event) (userId : Nat) : List Event :=
  events.filter (fun e => ¬ e.userId = userId)

/-- The intermediate store of the account-deletion route after
`Event.deleteMany({ userId })` but before `User.findByIdAndDelete`. -/
def deleteEventsStep (st : St) (userId : Nat) : St :=
  { st with events := deleteAllByOwner st.events userId }

/-- Deletion `User.findByIdAndDelete` applied to the store: removes the
document with that `_id` (Mongo ids are unique, so at most one). -/
def deleteUserStep (st : St) (userId : Nat) : St :=
  { st with users := st.users.eraseP (fun v => v.id = userId) }

/-- Route DELETE /api/users/me/:id: 404 if the user is absent, 401 if the
password does not verify, otherwise delete the events of the user first and
then the user record. -/
def deleteOwnAccount (st : St) (userId : Nat) (password : String) :
    ApiResult × St :=
  match st.users.find? (fun u => u.id = userId) with
  | none => (.err 404 "Utilizador não encontrado.", st)
  | some user =>
      if bcryptVerify password user.password then
        (.ok 200 "Conta apagada com sucesso.",
          deleteUserStep (deleteEventsStep st userId) userId)
      else
        (.err 401 "Senha incorreta.", st)

/-- Route POST /api/events: append the new event (no owner-existence check in
the handler) and echo it back with status 201.  `freshId` is the Mongo
object id. -/
def createEvent (st : St) (freshId : Nat) (userId : Nat) (eventName : String)
    (venue : String) (dateTime : Int) : Event × St :=
  let newEvent : Event := ⟨freshId, userId, eventName, venue, dateTime⟩
  (newEvent, { st with events := st.events ++ [newEvent] })

/-- Route GET /api/events/:userId: `Event.find` by owner followed by an
ascending sort on dateTime. -/
def listEvents (st : St) (userId : Nat) : List Event :=
  (st.events.filter (fun e => e.userId = userId)).mergeSort
    (fun a b => a.dateTime ≤ b.dateTime)

/-- Route DELETE /api/events/:id: `Event.findByIdAndDelete`, 404 when the id
is absent. -/
def deleteEvent (st : St) (eventId : Nat) : ApiResult × St :=
  match st.events.find? (fun e => e.id = eventId) with
  | none => (.err 404 "Evento não encontrado.", st)
  | some _ =>
      (.ok 200 "Evento apagado com sucesso.",
        { st with events := st.events.eraseP (fun e => e.id = eventId) })

/-- Email uniqueness, the `unique: true` constraint of `UserSchema`. -/
def EmailUnique (st : St) : Prop :=
  ∀ u ∈ st.users, ∀ v ∈ st.users, u.email = v.email → u = v

/-- Every event references exactly one existing user record. -/
def OwnerInvariant (st : St) : Prop :=
  ∀ e ∈ st.events, ∃! u : User, u ∈ st.users ∧ u.id = e.userId

/-- States reachable from the empty store by the exposed state-changing
operations.  Mongo generates globally unique `_id`s, so the register step
carries the corresponding freshness side condition; the event routes place no
condition on their payloads, exactly as the handlers do. -/
inductive Reachable : St → Prop where
  | init : Reachable ⟨[], []⟩
  | step_register (st : St) (freshId salt : Nat) (name email password : String)
      (birthDate : Int) (hfresh : freshId ∉ st.users.map User.id) :
      Reachable st →
      Reachable (register st freshId salt name email password birthDate).2
  | step_resetPassword (st : St) (salt userId : Nat) (newPassword : String) :
      Reachable st → Reachable (resetPassword st salt userId newPassword).2
  | step_deleteOwnAccount (st : St) (userId : Nat) (password : String) :
      Reachable st → Reachable (deleteOwnAccount st userId password).2
  | step_createEvent (st : St) (freshId userId : Nat)
      (eventName venue : String) (dateTime : Int) :
      Reachable st →
      Reachable (createEvent st freshId userId eventName venue dateTime).2
  | step_deleteEvent (st : St) (eventId : Nat) :
      Reachable st → Reachable (deleteEvent st eventId).2

/-- Like `Reachable`, but every `createEvent` request names an existing user
as owner (the check the handler itself does not perform). -/
inductive ReachableOwnerChecked : St → Prop where
  | init : ReachableOwnerChecked ⟨[], []⟩
  | step_register (st : St) (freshId salt : Nat) (name email password : String)
      (birthDate : Int) (hfresh : freshId ∉ st.users.map User.id) :
      ReachableOwnerChecked st →
      ReachableOwnerChecked (register st freshId salt name email password birthDate).2
  | step_resetPassword (st : St) (salt userId : Nat) (newPassword : String) :
      ReachableOwnerChecked st →
      ReachableOwnerChecked (resetPassword st salt userId newPassword).2
  | step_deleteOwnAccount (st : St) (userId : Nat) (password : String) :
      ReachableOwnerChecked st →
      ReachableOwnerChecked (deleteOwnAccount st userId password).2
  | step_createEvent (st : St) (freshId userId : Nat)
      (eventName venue : String) (dateTime : Int)
      (hown : ∃ u ∈ st.users, u.id = userId) :
      ReachableOwnerChecked st →
      ReachableOwnerChecked (createEvent st freshId userId eventName venue dateTime).2
  | step_deleteEvent (st : St) (eventId : Nat) :
      ReachableOwnerChecked st →
      ReachableOwnerChecked (deleteEvent st eventId).2

/-! Helper lemmas. -/

/-- A pointwise update that leaves the searched field alone commutes with
`find?`. -/
theorem find?_map_of_pred (f : User → User) (p : User → Bool)
    (hp : ∀ v, p (f v) = p v) (l : List User) :
    (l.map f).find? p = (l.find? p).map f := by
  have hfp : p ∘ f = p := funext hp
  rw [List.find?_map, hfp]

/-- Erasing the user with a given id from an id-unique list leaves no user
with that id behind. -/
theorem find?_eraseP_id_none (l : List User) (userId : Nat)
    (hnd : (l.map User.id).Nodup) :
    (l.eraseP (fun v => v.id = userId)).find? (fun v => v.id = userId)
      = none := by
  induction l with
  | nil => simp
  | cons x xs ih =>
      rw [List.map_cons, List.nodup_cons] at hnd
      by_cases hx : x.id = userId
      · rw [List.eraseP_cons_of_pos (by simpa using hx)]
        rw [List.find?_eq_none]
        intro v hv
        simp only [decide_eq_true_eq]
        intro hveq
        exact hnd.1 (by
          rw [hx, ← hveq]
          exact List.mem_map_of_mem User.id hv)
      · rw [List.eraseP_cons_of_neg (by simpa using hx)]
        rw [List.find?_cons_of_neg _ (by simpa using hx)]
        exact ih hnd.2

/-- An element the erased predicate rejects survives `eraseP`. -/
theorem mem_eraseP_of_pred_false {α : Type} {l : List α} {a : α}
    {p : α → Bool} (ha : a ∈ l) (hp : p a = false) : a ∈ l.eraseP p :=
  (List.mem_eraseP_of_neg (by simp [hp])).mpr ha

/-- Under email uniqueness, looking a member user up by its own email finds
exactly that user. -/
theorem findOneByEmail_self (st : St) (u : User) (huniq : EmailUnique st)
    (hmem : u ∈ st.users) : findOneByEmail st.users u.email = some u := by
  cases hfind : findOneByEmail st.users u.email with
  | none =>
      rw [findOneByEmail, List.find?_eq_none] at hfind
      exact absurd (by simp : decide (u.email = u.email) = true) (hfind u hmem)
  | some v =>
      have hvmem : v ∈ st.users := List.mem_of_find?_eq_some hfind
      have hvemail : v.email = u.email := by
        have := List.find?_some hfind
        simpa using this
      rw [huniq v hvmem u hmem hvemail]

/-! Claim theorems. -/

/-- C1: for every password p, verify(p, hash(p)) is true, and for distinct
p1, p2, verify(p2, hash(p1)) is false — the bcrypt operations used by the
register and login handlers. -/
theorem hash_verify_roundtrip :
    (∀ (salt : Nat) (p : String), bcryptVerify p (bcryptHash salt p) = true)
    ∧ (∀ (salt : Nat) (p1 p2 : String), p1 ≠ p2 →
        bcryptVerify p2 (bcryptHash salt p1) = false) := by
  constructor
  · intro salt p
    simp [bcryptVerify, bcryptHash]
  · intro salt p1 p2 hne
    simp only [bcryptVerify, bcryptHash, decide_eq_false_iff_not,
      HashValue.mk.injEq]
    intro h
    exact hne h.2.symm

/-- Witness for C1 at concrete passwords. -/
theorem hash_verify_roundtrip_witness :
    bcryptVerify "a" (bcryptHash 0 "a") = true
    ∧ ("b" ≠ "a"
       ∧ bcryptVerify "a" (bcryptHash 0 "b") = false) :=
  ⟨hash_verify_roundtrip.1 0 "a",
   by decide,
   hash_verify_roundtrip.2 0 "b" "a" (by decide)⟩

/-- C2: unknown email and failing password verification both make login fail
with the same error value and the same status 401, so the two failure causes
are indistinguishable to the caller. -/
theorem login_invalid_credentials_indistinguishable :
    ∀ (st : St) (email password : String),
      (findOneByEmail st.users email = none →
        login st email password = .err 401 "Email ou senha inválidos.")
      ∧ (∀ u : User, findOneByEmail st.users email = some u →
          bcryptVerify password u.password = false →
          login st email password = .err 401 "Email ou senha inválidos.") := by
  intro st email password
  constructor
  · intro h
    simp [login, h]
  · intro u hu hv
    simp [login, hu, hv]

/-- Concrete store used by several witnesses: one registered user. -/
def wUser : User := ⟨1, "Ana", "ana@mail.com", bcryptHash 3 "pw", 0⟩

/-- Concrete store used by several witnesses. -/
def wSt : St := ⟨[wUser], []⟩

/-- Witness for C2: unknown email and wrong password at a concrete store. -/
theorem login_invalid_credentials_witness :
    login wSt "bob@mail.com" "pw" = .err 401 "Email ou senha inválidos."
    ∧ login wSt "ana@mail.com" "wrong"
        = .err 401 "Email ou senha inválidos." :=
  ⟨(login_invalid_credentials_indistinguishable wSt "bob@mail.com" "pw").1
     (by decide),
   (login_invalid_credentials_indistinguishable wSt "ana@mail.com" "wrong").2
     wUser (by decide) (by decide)⟩

/-- C5: account deletion with a password that does not verify fails with 401
InvalidPassword and leaves the store entirely unchanged. -/
theorem deleteOwnAccount_wrong_password_no_change :
    ∀ (st : St) (userId : Nat) (password : String) (u : User),
      st.users.find? (fun v => v.id = userId) = some u →
      bcryptVerify password u.password = false →
      deleteOwnAccount st userId password
        = (.err 401 "Senha incorreta.", st) := by
  intro st userId password u hu hv
  simp [deleteOwnAccount, hu, hv]

/-- Witness for C5 at a concrete store. -/
theorem deleteOwnAccount_wrong_password_witness :
    deleteOwnAccount wSt 1 "wrong" = (.err 401 "Senha incorreta.", wSt) :=
  deleteOwnAccount_wrong_password_no_change wSt 1 "wrong" wUser
    (by decide) (by decide)

/-- C7: registering an already-used email fails with 400 EmailInUse whatever
the other fields are and creates no record; with a free email the user is
created with the hashed password, and the response never depends on the
password (no secret is echoed back). -/
theorem register_email_unique_and_no_secret :
    (∀ (st : St) (freshId salt : Nat) (name email password : String)
       (birthDate : Int),
       (∃ u ∈ st.users, u.email = email) →
       register st freshId salt name email password birthDate
         = (.err 400 "Email já está em uso.", st))
    ∧ (∀ (st : St) (freshId salt : Nat) (name email password : String)
       (birthDate : Int),
       (∀ u ∈ st.users, u.email ≠ email) →
       register st freshId salt name email password birthDate
         = (.ok 201 "Utilizador criado com sucesso!",
            { st with users := st.users
                ++ [⟨freshId, name, email, bcryptHash salt password,
                     birthDate⟩] }))
    ∧ (∀ (st : St) (freshId salt : Nat) (name email password1 password2 : String)
       (birthDate : Int),
       (register st freshId salt name email password1 birthDate).1
         = (register st freshId salt name email password2 birthDate).1) := by
  refine ⟨?_, ?_, ?_⟩
  · rintro st freshId salt name email password birthDate ⟨u, hu, he⟩
    have hsome : ∃ v, findOneByEmail st.users email = some v := by
      rw [← Option.isSome_iff_exists, findOneByEmail, List.find?_isSome]
      exact ⟨u, hu, by simpa using he⟩
    obtain ⟨v, hv⟩ := hsome
    simp [register, hv]
  · intro st freshId salt name email password birthDate h
    have hnone : findOneByEmail st.users email = none := by
      rw [findOneByEmail, List.find?_eq_none]
      intro x hx
      simpa using h x hx
    simp [register, hnone]
  · intro st freshId salt name email password1 password2 birthDate
    cases hfind : findOneByEmail st.users email <;> simp [register, hfind]

/-- Witness for C7: duplicate email rejected, free email created, response
independent of the password, at a concrete store. -/
theorem register_email_unique_witness :
    register wSt 2 4 "Bob" "ana@mail.com" "x" 5
      = (.err 400 "Email já está em uso.", wSt)
    ∧ register wSt 2 4 "Bob" "bob@mail.com" "x" 5
      = (.ok 201 "Utilizador criado com sucesso!",
         { wSt with users := wSt.users
             ++ [⟨2, "Bob", "bob@mail.com", bcryptHash 4 "x", 5⟩] })
    ∧ (register wSt 2 4 "Bob" "bob@mail.com" "x" 5).1
      = (register wSt 2 4 "Bob" "bob@mail.com" "y" 5).1 :=
  ⟨register_email_unique_and_no_secret.1 wSt 2 4 "Bob" "ana@mail.com" "x" 5
     ⟨wUser, by decide, by decide⟩,
   register_email_unique_and_no_secret.2.1 wSt 2 4 "Bob" "bob@mail.com" "x" 5
     (by decide),
   register_email_unique_and_no_secret.2.2 wSt 2 4 "Bob" "bob@mail.com"
     "x" "y" 5⟩

/-- C6: under the email uniqueness of the schema, VerifyIdentity answers the id of
the single user matching both email and birthDate exactly, and fails with 404
NotFound when no record matches both fields. -/
theorem verifyIdentity_exact_match :
    ∀ (st : St) (email : String) (birthDate : Int), EmailUnique st →
      (∀ userId : Nat,
        verifyIdentity st email birthDate = .ok userId ↔
          ∃! u : User, u ∈ st.users ∧ u.email = email
            ∧ u.birthDate = birthDate ∧ u.id = userId)
      ∧ ((¬ ∃ u ∈ st.users, u.email = email ∧ u.birthDate = birthDate) →
        verifyIdentity st email birthDate
          = .err 404 "Dados não encontrados.") := by
  intro st email birthDate huniq
  constructor
  · intro userId
    constructor
    · intro hok
      cases hfind : st.users.find?
          (fun u => u.email = email ∧ u.birthDate = birthDate) with
      | none => rw [verifyIdentity, hfind] at hok; exact absurd hok (by simp)
      | some v =>
          rw [verifyIdentity, hfind] at hok
          have hid : v.id = userId := by
            simpa using hok
          have hvmem : v ∈ st.users := List.mem_of_find?_eq_some hfind
          have hv : v.email = email ∧ v.birthDate = birthDate := by
            have := List.find?_some hfind
            simpa using this
          refine ⟨v, ⟨hvmem, hv.1, hv.2, hid⟩, ?_⟩
          rintro w ⟨hwmem, hwe, -, -⟩
          exact huniq w hwmem v hvmem (by rw [hwe, hv.1])
    · rintro ⟨u, ⟨hmem, he, hb, hid⟩, -⟩
      cases hfind : st.users.find?
          (fun w => w.email = email ∧ w.birthDate = birthDate) with
      | none =>
          rw [List.find?_eq_none] at hfind
          exact absurd (by simp [he, hb] :
            decide (u.email = email ∧ u.birthDate = birthDate) = true)
            (hfind u hmem)
      | some v =>
          have hvmem : v ∈ st.users := List.mem_of_find?_eq_some hfind
          have hv : v.email = email ∧ v.birthDate = birthDate := by
            have := List.find?_some hfind
            simpa using this
          have : v = u := huniq v hvmem u hmem (by rw [hv.1, he])
          rw [verifyIdentity, hfind]
          simp [this, hid]
  · intro hnone
    have : st.users.find?
        (fun u => u.email = email ∧ u.birthDate = birthDate) = none := by
      rw [List.find?_eq_none]
      intro x hx hpx
      exact hnone ⟨x, hx, by simpa using hpx⟩
    rw [verifyIdentity, this]

/-- Witness for C6: matching pair found, wrong birthDate rejected, at a
concrete store. -/
theorem verifyIdentity_exact_match_witness :
    (verifyIdentity wSt "ana@mail.com" 0 = .ok 1 ↔
      ∃! u : User, u ∈ wSt.users ∧ u.email = "ana@mail.com"
        ∧ u.birthDate = 0 ∧ u.id = 1)
    ∧ verifyIdentity wSt "ana@mail.com" 9
        = .err 404 "Dados não encontrados." :=
  ⟨(verifyIdentity_exact_match wSt "ana@mail.com" 0
      (by simp only [EmailUnique]; decide)).1 1,
   (verifyIdentity_exact_match wSt "ana@mail.com" 9
      (by simp only [EmailUnique]; decide)).2 (by decide)⟩

/-- C10: a successful password reset rewrites only the password field of the
addressed user: every event, every other user record, and the own
name, email and birthDate are untouched. -/
theorem resetPassword_frame :
    ∀ (st : St) (salt userId : Nat) (newPassword : String),
      (st.users.find? (fun v => v.id = userId)).isSome →
      ((resetPassword st salt userId newPassword).1
          = .ok 200 "Senha redefinida com sucesso!"
       ∧ (resetPassword st salt userId newPassword).2.events = st.events
       ∧ (resetPassword st salt userId newPassword).2.users
           = st.users.map (fun v =>
               if v.id = userId
               then { v with password := bcryptHash salt newPassword }
               else v)
       ∧ (∀ v ∈ st.users, ¬ v.id = userId →
            v ∈ (resetPassword st salt userId newPassword).2.users)
       ∧ (∀ v ∈ st.users,
            ∃ w ∈ (resetPassword st salt userId newPassword).2.users,
              w.id = v.id ∧ w.name = v.name ∧ w.email = v.email
                ∧ w.birthDate = v.birthDate)) := by
  intro st salt userId newPassword hsome
  rw [Option.isSome_iff_exists] at hsome
  obtain ⟨u, hu⟩ := hsome
  refine ⟨by simp [resetPassword, hu], by simp [resetPassword, hu],
    by simp [resetPassword, hu], ?_, ?_⟩
  · intro v hv hvid
    simp only [resetPassword, hu]
    exact List.mem_map.mpr ⟨v, hv, by simp [hvid]⟩
  · intro v hv
    simp only [resetPassword, hu]
    refine ⟨if v.id = userId
            then { v with password := bcryptHash salt newPassword }
            else v, List.mem_map_of_mem _ hv, ?_⟩
    by_cases hvid : v.id = userId <;> simp [hvid]

/-- Witness for C10 at a concrete store. -/
theorem resetPassword_frame_witness :
    (resetPassword wSt 6 1 "new").1 = .ok 200 "Senha redefinida com sucesso!"
    ∧ (resetPassword wSt 6 1 "new").2.events = wSt.events
    ∧ (resetPassword wSt 6 1 "new").2.users
        = wSt.users.map (fun v =>
            if v.id = 1 then { v with password := bcryptHash 6 "new" } else v)
    ∧ (∀ v ∈ wSt.users, ¬ v.id = 1 →
         v ∈ (resetPassword wSt 6 1 "new").2.users)
    ∧ (∀ v ∈ wSt.users, ∃ w ∈ (resetPassword wSt 6 1 "new").2.users,
         w.id = v.id ∧ w.name = v.name ∧ w.email = v.email
           ∧ w.birthDate = v.birthDate) :=
  resetPassword_frame wSt 6 1 "new" (by decide)

/-- C3: after a successful password reset the old password no longer logs in
and the new one does; resetting an absent userId fails with 404 NotFound. -/
theorem resetPassword_changes_login :
    (∀ (st : St) (salt : Nat) (u : User) (pOld pNew : String),
       EmailUnique st → u ∈ st.users →
       bcryptVerify pOld u.password = true → pOld ≠ pNew →
       (resetPassword st salt u.id pNew).1
           = .ok 200 "Senha redefinida com sucesso!"
       ∧ login (resetPassword st salt u.id pNew).2 u.email pOld
           = .err 401 "Email ou senha inválidos."
       ∧ login (resetPassword st salt u.id pNew).2 u.email pNew
           = .ok u.id u.name u.email)
    ∧ (∀ (st : St) (salt userId : Nat) (pNew : String),
       (∀ v ∈ st.users, ¬ v.id = userId) →
       resetPassword st salt userId pNew
         = (.err 404 "Utilizador não encontrado.", st)) := by
  constructor
  · intro st salt u pOld pNew huniq hmem hold hne
    obtain ⟨w, hw⟩ : ∃ w, st.users.find? (fun v => v.id = u.id) = some w := by
      rw [← Option.isSome_iff_exists, List.find?_isSome]
      exact ⟨u, hmem, by simp⟩
    have husers : (resetPassword st salt u.id pNew).2.users
        = st.users.map (fun v =>
            if v.id = u.id then { v with password := bcryptHash salt pNew }
            else v) := by
      simp [resetPassword, hw]
    have hself := findOneByEmail_self st u huniq hmem
    rw [findOneByEmail] at hself
    have hfind : findOneByEmail (resetPassword st salt u.id pNew).2.users
        u.email = some { u with password := bcryptHash salt pNew } := by
      rw [husers, findOneByEmail,
        find?_map_of_pred _ _ (fun v => by
          by_cases h : v.id = u.id <;> simp [h]) st.users,
        hself]
      simp
    refine ⟨by simp [resetPassword, hw], ?_, ?_⟩
    · simp only [login, hfind]
      simp [bcryptVerify, bcryptHash, hne]
    · simp only [login, hfind]
      simp [bcryptVerify, bcryptHash]
  · intro st salt userId pNew h
    have hnone : st.users.find? (fun v => v.id = userId) = none := by
      rw [List.find?_eq_none]
      intro x hx
      simpa using h x hx
    simp [resetPassword, hnone]

/-- Witness for C3 at a concrete store. -/
theorem resetPassword_changes_login_witness :
    (login (resetPassword wSt 6 1 "new").2 "ana@mail.com" "pw"
        = .err 401 "Email ou senha inválidos."
     ∧ login (resetPassword wSt 6 1 "new").2 "ana@mail.com" "new"
        = .ok 1 "Ana" "ana@mail.com")
    ∧ resetPassword wSt 6 99 "x"
        = (.err 404 "Utilizador não encontrado.", wSt) :=
  ⟨⟨(resetPassword_changes_login.1 wSt 6 wUser "pw" "new"
       (by simp only [EmailUnique]; decide) (by decide) (by decide)
       (by decide)).2.1,
    (resetPassword_changes_login.1 wSt 6 wUser "pw" "new"
       (by simp only [EmailUnique]; decide) (by decide) (by decide)
       (by decide)).2.2⟩,
   resetPassword_changes_login.2 wSt 6 99 "x" (by decide)⟩

/-- C4: account deletion with the correct password removes the events of the
user
strictly before the user record — in the intermediate store the user is still
present while its events are already gone — and afterwards ListEvents for
that id is empty and the user record is gone. -/
theorem deleteOwnAccount_cascade :
    ∀ (st : St) (u : User) (password : String),
      (st.users.map User.id).Nodup →
      st.users.find? (fun v => v.id = u.id) = some u →
      bcryptVerify password u.password = true →
      (deleteOwnAccount st u.id password
        = (.ok 200 "Conta apagada com sucesso.",
           deleteUserStep (deleteEventsStep st u.id) u.id)
       ∧ u ∈ (deleteEventsStep st u.id).users
       ∧ listEvents (deleteEventsStep st u.id) u.id = []
       ∧ listEvents (deleteOwnAccount st u.id password).2 u.id = []
       ∧ (deleteOwnAccount st u.id password).2.users.find?
           (fun v => v.id = u.id) = none) := by
  intro st u password hnd hfind hv
  have hev0 : ∀ E : List Event,
      (E.filter (fun e => ¬ e.userId = u.id)).filter
        (fun e => e.userId = u.id) = [] := by
    intro E
    rw [List.filter_filter, List.filter_eq_nil_iff]
    intro a ha
    by_cases h : a.userId = u.id <;> simp [h]
  have heq : deleteOwnAccount st u.id password
      = (.ok 200 "Conta apagada com sucesso.",
         deleteUserStep (deleteEventsStep st u.id) u.id) := by
    simp [deleteOwnAccount, hfind, hv]
  have hev1 : listEvents (deleteEventsStep st u.id) u.id = [] := by
    simp only [listEvents, deleteEventsStep, deleteAllByOwner]
    rw [hev0 st.events, List.mergeSort_nil]
  refine ⟨heq, ?_, hev1, ?_, ?_⟩
  · simpa [deleteEventsStep] using List.mem_of_find?_eq_some hfind
  · rw [heq]
    simp only [listEvents, deleteUserStep, deleteEventsStep, deleteAllByOwner]
    rw [hev0 st.events, List.mergeSort_nil]
  · rw [heq]
    simp only [deleteUserStep, deleteEventsStep]
    exact find?_eraseP_id_none st.users u.id hnd

/-- Events used by the account-deletion witness. -/
def wEvent1 : Event := ⟨10, 1, "party", "club", 5⟩

/-- Events used by the account-deletion witness. -/
def wEvent2 : Event := ⟨11, 2, "expo", "hall", 7⟩

/-- Store with one user and two events, used by the deletion witness. -/
def wStE : St := ⟨[wUser], [wEvent1, wEvent2]⟩

/-- Witness for C4 at a concrete store. -/
theorem deleteOwnAccount_cascade_witness :
    deleteOwnAccount wStE 1 "pw"
      = (.ok 200 "Conta apagada com sucesso.",
         deleteUserStep (deleteEventsStep wStE 1) 1)
    ∧ wUser ∈ (deleteEventsStep wStE 1).users
    ∧ listEvents (deleteEventsStep wStE 1) 1 = []
    ∧ listEvents (deleteOwnAccount wStE 1 "pw").2 1 = []
    ∧ (deleteOwnAccount wStE 1 "pw").2.users.find?
        (fun v => v.id = 1) = none :=
  deleteOwnAccount_cascade wStE wUser "pw" (by decide) (by decide) (by decide)

/-- C9: ListEvents answers exactly the events of the given owner, as a
sequence sorted ascending by dateTime. -/
theorem listEvents_sorted_exact :
    ∀ (st : St) (userId : Nat),
      (listEvents st userId).Perm
        (st.events.filter (fun e => e.userId = userId))
      ∧ List.Sorted (fun a b : Event => a.dateTime ≤ b.dateTime)
          (listEvents st userId)
      ∧ (∀ e : Event, e ∈ listEvents st userId ↔
           e ∈ st.events ∧ e.userId = userId) := by
  intro st userId
  refine ⟨List.mergeSort_perm _ _, ?_, ?_⟩
  · have htrans : ∀ a b c : Event,
        decide (a.dateTime ≤ b.dateTime) = true →
        decide (b.dateTime ≤ c.dateTime) = true →
        decide (a.dateTime ≤ c.dateTime) = true := by
      intro a b c hab hbc
      simp only [decide_eq_true_eq] at *
      exact le_trans hab hbc
    have htotal : ∀ a b : Event,
        (decide (a.dateTime ≤ b.dateTime)
          || decide (b.dateTime ≤ a.dateTime)) = true := by
      intro a b
      simpa using Int.le_total a.dateTime b.dateTime
    have h := @List.sorted_mergeSort Event
      (fun a b => a.dateTime ≤ b.dateTime) htrans htotal
      (st.events.filter (fun e => e.userId = userId))
    exact List.Pairwise.imp (fun hab => by simpa using hab) h
  · intro e
    rw [listEvents, List.mem_mergeSort, List.mem_filter]
    simp

/-- Auxiliary invariant: user ids are pairwise distinct and the owner id of
every event belongs to some user. -/
def StoreInv (st : St) : Prop :=
  (st.users.map User.id).Nodup ∧ ∀ e ∈ st.events, ∃ u ∈ st.users, u.id = e.userId

/-- Every owner-checked run preserves `StoreInv`. -/
theorem storeInv_of_reachable (st : St) (h : ReachableOwnerChecked st) :
    StoreInv st := by
  induction h with
  | init => exact ⟨by simp, by simp⟩
  | step_register st freshId salt name email password birthDate hfresh _ ih =>
      cases hfind : findOneByEmail st.users email with
      | some v => simpa [register, hfind] using ih
      | none =>
          simp only [register, hfind]
          refine ⟨?_, ?_⟩
          · rw [List.map_append, List.map_cons, List.map_nil,
              ← List.concat_eq_append]
            exact List.Nodup.concat hfresh ih.1
          · intro e he
            obtain ⟨u, hu, hid⟩ := ih.2 e he
            exact ⟨u, List.mem_append_left _ hu, hid⟩
  | step_resetPassword st salt userId newPassword _ ih =>
      cases hfind : st.users.find? (fun v => v.id = userId) with
      | none => simpa [resetPassword, hfind] using ih
      | some v =>
          simp only [resetPassword, hfind]
          have hid : ∀ w : User,
              (if w.id = userId
               then { w with password := bcryptHash salt newPassword }
               else w).id = w.id := by
            intro w
            by_cases h : w.id = userId <;> simp [h]
          refine ⟨?_, ?_⟩
          · rw [List.map_map]
            have hmapeq : List.map (User.id ∘ (fun v =>
                if v.id = userId
                then { v with password := bcryptHash salt newPassword }
                else v)) st.users = List.map User.id st.users :=
              List.map_congr_left fun w _ => hid w
            rw [hmapeq]
            exact ih.1
          · intro e he
            obtain ⟨u, hu, huid⟩ := ih.2 e he
            refine ⟨if u.id = userId
                    then { u with password := bcryptHash salt newPassword }
                    else u, List.mem_map_of_mem _ hu, ?_⟩
            rw [hid u, huid]
  | step_deleteOwnAccount st userId password _ ih =>
      cases hfind : st.users.find? (fun v => v.id = userId) with
      | none => simpa [deleteOwnAccount, hfind] using ih
      | some v =>
          by_cases hv : bcryptVerify password v.password = true
          · simp only [deleteOwnAccount, hfind, hv, if_true]
            refine ⟨?_, ?_⟩
            · exact List.Nodup.sublist
                (List.Sublist.map User.id (List.eraseP_sublist st.users)) ih.1
            · intro e he
              simp only [deleteUserStep, deleteEventsStep, deleteAllByOwner,
                List.mem_filter] at he ⊢
              obtain ⟨u, hu, huid⟩ := ih.2 e he.1
              have hneq : ¬ u.id = userId := by
                have he2 : ¬ e.userId = userId := by simpa using he.2
                intro hcontra
                exact he2 (by rw [← huid, hcontra])
              exact ⟨u, mem_eraseP_of_pred_false hu (by simp [hneq]), huid⟩
          · have hv2 : bcryptVerify password v.password = false := by
              simpa using hv
            simpa [deleteOwnAccount, hfind, hv2] using ih
  | step_createEvent st freshId userId eventName venue dateTime hown _ ih =>
      refine ⟨ih.1, ?_⟩
      intro e he
      simp only [createEvent, List.mem_append, List.mem_singleton] at he
      cases he with
      | inl h => exact ih.2 e h
      | inr h =>
          obtain ⟨u, hu, huid⟩ := hown
          exact ⟨u, hu, by rw [h, huid]⟩
  | step_deleteEvent st eventId _ ih =>
      cases hfind : st.events.find? (fun e => e.id = eventId) with
      | none => simpa [deleteEvent, hfind] using ih
      | some v =>
          simp only [deleteEvent, hfind]
          refine ⟨ih.1, ?_⟩
          intro e he
          exact ih.2 e (List.mem_of_mem_eraseP he)

/-- C8 as stated is false: the event-creation handler performs no
owner-existence check, so a store holding an event whose owner id matches no
user at all is reachable. -/
def orphanSt : St := (createEvent ⟨[], []⟩ 0 0 "party" "club" 0).2

/-- Counterexample for C8: from the empty store, one CreateEvent request with
owner id 0 reaches a store with an event and no users. -/
theorem owner_invariant_counterexample :
    Reachable orphanSt ∧ ¬ OwnerInvariant orphanSt := by
  constructor
  · exact Reachable.step_createEvent ⟨[], []⟩ 0 0 "party" "club" 0
      Reachable.init
  · intro h
    have hmem : (⟨0, 0, "party", "club", 0⟩ : Event) ∈ orphanSt.events := by
      simp [orphanSt, createEvent]
    obtain ⟨u, ⟨humem, -⟩, -⟩ := h ⟨0, 0, "party", "club", 0⟩ hmem
    simp [orphanSt, createEvent] at humem

/-- C8 amended: in every state reachable when each CreateEvent names an
existing user as owner, every event references exactly one existing user. -/
theorem owner_invariant_of_owner_checked :
    ∀ st : St, ReachableOwnerChecked st → OwnerInvariant st := by
  intro st h e he
  obtain ⟨hnd, hex⟩ := storeInv_of_reachable st h
  obtain ⟨u, hu, huid⟩ := hex e he
  refine ⟨u, ⟨hu, huid⟩, ?_⟩
  rintro v ⟨hv, hvid⟩
  exact List.inj_on_of_nodup_map hnd hv hu (by rw [hvid, huid])

/-- Witness store for the amended C8: register a user, then create an event
owned by that user. -/
def wStOwn : St :=
  (createEvent (register ⟨[], []⟩ 1 3 "Ana" "ana@mail.com" "pw" 0).2
    7 1 "party" "club" 10).2

/-- Witness for the amended C8 at a concrete owner-checked run. -/
theorem owner_invariant_of_owner_checked_witness : OwnerInvariant wStOwn :=
  owner_invariant_of_owner_checked wStOwn
    (ReachableOwnerChecked.step_createEvent _ 7 1 "party" "club" 10
      (by decide)
      (ReachableOwnerChecked.step_register ⟨[], []⟩ 1 3 "Ana" "ana@mail.com"
        "pw" 0 (by decide) ReachableOwnerChecked.init))

end Agenda
